import Mathlib

/-!
Verification development for the DevCoach-AI backend
(`backend/server.py`).  The Python source is shallowly embedded:

* Python dict payloads with fixed keys become Lean structures whose
  fields carry the same names; `dict.get(k, d)` on an optional field
  becomes `Option.getD`.
* Network / JSON-shape failures (anything that makes the surrounding
  `try` block raise) are modelled by an `Except String` input: the
  `.error msg` case stands for "the HTTP call or response decoding
  raised an exception with message `msg`".
* Python `float` arithmetic in the acceptance-rate computation is
  idealised as exact rational arithmetic, implemented over `ℤ` with
  round half to even (Python's `round`); on the inputs considered here
  the two agree exactly.
* Machine-independent data (counts, ratings) are Python arbitrary
  precision integers and are modelled by `ℤ`/`ℕ`.
-/

/-! ## LeetCode adapter (`fetch_leetcode_stats`, server.py lines 127-198) -/

/-- One entry of `acSubmissionNum` / `totalSubmissionNum` in the
LeetCode API response.  Each field is read with `dict.get` and a
default, so each is optional here. -/
structure LCStatEntry where
  difficulty : Option String
  count : Option ℤ
  submissions : Option ℤ
deriving DecidableEq, Repr

/-- The `profile` block of the LeetCode API response
(`data.get('profile', {})`); an absent block behaves like the record
with every field `none`. -/
structure LCProfileData where
  realName : Option String
  ranking : Option ℤ
  reputation : Option ℤ
  githubUrl : Option String
  twitterUrl : Option String
  linkedinUrl : Option String
  aboutMe : Option String
  contributionPoints : Option ℤ
deriving DecidableEq, Repr

/-- Decoded LeetCode API response body: the `profile` block plus the
two statistics lists under `submitStats`
(`submit_stats.get('acSubmissionNum', [])` and
`submit_stats.get('totalSubmissionNum', [])`; an absent list defaults
to `[]`). -/
structure LCData where
  profile : LCProfileData
  acSubmissionNum : List LCStatEntry
  totalSubmissionNum : List LCStatEntry
deriving DecidableEq, Repr

/-- The four per-difficulty solved counters accumulated by the
`for stat in ac_submission` loop of `fetch_leetcode_stats`. -/
structure LCSolvedCounts where
  total_solved : ℤ
  easy_solved : ℤ
  medium_solved : ℤ
  hard_solved : ℤ
deriving DecidableEq, Repr

/-- Body of the `for stat in ac_submission` loop: lower-case the
difficulty label (default `''`), read the count (default `0`), and
overwrite the matching counter; unknown labels are ignored. -/
def lcSolvedStep (acc : LCSolvedCounts) (stat : LCStatEntry) : LCSolvedCounts :=
  let difficulty := String.mk ((stat.difficulty.getD "").toList.map Char.toLower)
  let count := stat.count.getD 0
  if difficulty = "all" then { acc with total_solved := count }
  else if difficulty = "easy" then { acc with easy_solved := count }
  else if difficulty = "medium" then { acc with medium_solved := count }
  else if difficulty = "hard" then { acc with hard_solved := count }
  else acc

/-- The whole solved-count loop (all counters start at 0). -/
def lcSolvedCounts (l : List LCStatEntry) : LCSolvedCounts :=
  l.foldl lcSolvedStep ⟨0, 0, 0, 0⟩

/-- First entry of `totalSubmissionNum` whose `difficulty` equals
`'All'` (the generator inside both `next(...)` calls). -/
def firstAllEntry (l : List LCStatEntry) : Option LCStatEntry :=
  l.find? (fun e => e.difficulty == some "All")

/-- Value `total_accepted`: the first `'All'` entry's `count` (inner default
0), with `next` default 0 when no entry matches. -/
def totalAcceptedOf (l : List LCStatEntry) : ℤ :=
  match firstAllEntry l with
  | some e => e.count.getD 0
  | none => 0

/-- Value `total_submitted`: the first `'All'` entry's `submissions` (inner
default 0), with `next` default 1 when no entry matches. -/
def totalSubmittedOf (l : List LCStatEntry) : ℤ :=
  match firstAllEntry l with
  | some e => e.submissions.getD 0
  | none => 1

/-- Python `round` applied to the exact rational `num / den` (`den >
0`) at integer precision: round half to even.  `f` is the floor of the
quotient and `r` the remainder, so the fractional part compares to 1/2
as `2 * r` compares to `den`. -/
def roundHalfEvenDiv (num den : ℤ) : ℤ :=
  let f := Int.fdiv num den
  let r := num - den * f
  if 2 * r < den then f
  else if den < 2 * r then f + 1
  else if Int.emod f 2 = 0 then f else f + 1

/-- Rendering of a one-decimal float value given in tenths, as Python's
f-string does for the result of `round(x, 1)` (e.g. `250 ↦ "25.0"`,
`0 ↦ "0.0"`). -/
def renderTenths (n : ℤ) : String :=
  (if n < 0 then "-" else "") ++ toString (n.natAbs / 10) ++ "." ++ toString (n.natAbs % 10)

/-- The acceptance-rate expression of `fetch_leetcode_stats`:
`round((total_accepted / max(total_submitted, 1)) * 100, 1)` rendered
through `f"{acceptance_rate}%"` when `total_submitted > 0`, and the
Python int `0` (rendered `"0%"`) otherwise.  The value in tenths is
`total_accepted * 1000 / max(total_submitted, 1)`. -/
def acceptanceRateString (total_accepted total_submitted : ℤ) : String :=
  if 0 < total_submitted then
    renderTenths (roundHalfEvenDiv (total_accepted * 1000) (max total_submitted 1)) ++ "%"
  else "0%"

/-- The `profile` sub-dict of a successful LeetCode summary.  `ranking`
holds either an integer or the `'N/A'` placeholder, modelled as
`Option ℤ` with `none` standing for `'N/A'`. -/
structure LCProfileOut where
  username : String
  real_name : String
  ranking : Option ℤ
  reputation : ℤ
  github_link : String
  twitter_link : String
  linkedin_link : String
  about_me : String
deriving DecidableEq, Repr

/-- The `activity` sub-dict of a successful LeetCode summary. -/
structure LCActivityOut where
  total_solved : ℤ
  easy_solved : ℤ
  medium_solved : ℤ
  hard_solved : ℤ
  acceptance_rate : String
  total_submissions : ℤ
  contribution_points : ℤ
  reputation : ℤ
deriving DecidableEq, Repr

/-- A successful LeetCode summary (the dict returned on the happy
path). -/
structure LCSummary where
  profile : LCProfileOut
  activity : LCActivityOut
deriving DecidableEq, Repr

/-- Result of `fetch_leetcode_stats`: either the success summary, or
the error summary built in the `except` block, which is the dict
`profile = [username ↦ username]`, `activity = [note ↦ note]`,
`error = msg` — its profile holds only the username. -/
inductive LCResult where
  | ok : LCSummary → LCResult
  | err : (profile_username : String) → (activity_note : String) → (error : String) → LCResult
deriving DecidableEq, Repr

/-- Embeds `fetch_leetcode_stats(username)`.  `resp` is the outcome of the
HTTP call and JSON decoding: `.error e` when the call or the decoding
of the body into the expected shape raises (message `e`), `.ok (status,
data)` otherwise.  A non-200 status raises
`HTTPException(404, f"LeetCode user {username} not found")`, which the
function's own `except` turns into the error summary; every failure is
caught, so the function is total. -/
def fetch_leetcode_stats (username : String) (resp : Except String (ℤ × LCData)) : LCResult :=
  match resp with
  | .error e => .err username "Unable to fetch LeetCode data" e
  | .ok (status, data) =>
    if status ≠ 200 then
      .err username "Unable to fetch LeetCode data"
        ("404: LeetCode user " ++ username ++ " not found")
    else
      let profile_data := data.profile
      let counts := lcSolvedCounts data.acSubmissionNum
      let total_accepted := totalAcceptedOf data.totalSubmissionNum
      let total_submitted := totalSubmittedOf data.totalSubmissionNum
      .ok {
        profile := {
          username := username
          real_name := profile_data.realName.getD "Unknown"
          ranking := profile_data.ranking
          reputation := profile_data.reputation.getD 0
          github_link := profile_data.githubUrl.getD ""
          twitter_link := profile_data.twitterUrl.getD ""
          linkedin_link := profile_data.linkedinUrl.getD ""
          about_me := profile_data.aboutMe.getD "" }
        activity := {
          total_solved := counts.total_solved
          easy_solved := counts.easy_solved
          medium_solved := counts.medium_solved
          hard_solved := counts.hard_solved
          acceptance_rate := acceptanceRateString total_accepted total_submitted
          total_submissions := total_accepted
          contribution_points := profile_data.contributionPoints.getD 0
          reputation := profile_data.reputation.getD 0 } }

/-- The `acceptance_rate` field of a LeetCode fetch result, when the
fetch succeeded. -/
def lcAcceptanceOf : LCResult → Option String
  | .ok s => some s.activity.acceptance_rate
  | .err _ _ _ => none

/-- The `total_submissions` field of a LeetCode fetch result, when the
fetch succeeded. -/
def lcTotalSubmissionsOf : LCResult → Option ℤ
  | .ok s => some s.activity.total_submissions
  | .err _ _ _ => none

/-- The `profile` sub-dict of a LeetCode fetch result, when the fetch
succeeded. -/
def lcProfileOf : LCResult → Option LCProfileOut
  | .ok s => some s.profile
  | .err _ _ _ => none

/-- The `activity` sub-dict of a LeetCode fetch result, when the fetch
succeeded. -/
def lcActivityOf : LCResult → Option LCActivityOut
  | .ok s => some s.activity
  | .err _ _ _ => none

/-! ## GitHub adapter language statistics (`fetch_github_stats`, server.py lines 93-121) -/

/-- A repository entry as read by the language loop of
`fetch_github_stats`; only the `language` field (read with
`repo.get('language')`) feeds `top_languages`, the other repo fields
are not consumed by any property modelled here. -/
structure GhRepo where
  language : Option String
deriving DecidableEq, Repr

/-- Python truthiness of `repo.get('language')`: a present, non-empty
string. -/
def truthyLang : Option String → Bool
  | none => false
  | some s => !s.isEmpty

/-- Embeds `languages[lang] = languages.get(lang, 0) + 1` on an
insertion-ordered dict modelled as an association list: bump the
existing entry in place, or append a fresh entry with count 1. -/
def bumpLang : List (String × ℕ) → String → List (String × ℕ)
  | [], k => [(k, 1)]
  | (k', n) :: rest, k =>
    if k' = k then (k', n + 1) :: rest else (k', n) :: bumpLang rest k

/-- The `for repo in repos_data` loop building the `languages` dict
(truthy languages only), preserving first-appearance key order. -/
def langCounts (repos : List GhRepo) : List (String × ℕ) :=
  repos.foldl (fun acc r => if truthyLang r.language then bumpLang acc (r.language.getD "") else acc) []

/-- Stable insertion into a count-descending list: the inserted element
goes before every element of strictly smaller count and after every
element of count `≥` its own never — it passes only elements with
strictly greater count, so earlier elements win ties. -/
def insertByCountDesc (x : String × ℕ) : List (String × ℕ) → List (String × ℕ)
  | [] => [x]
  | y :: ys => if x.2 < y.2 then y :: insertByCountDesc x ys else x :: y :: ys

/-- Python's stable `sorted(languages.items(), key=lambda x: x[1],
reverse=True)`: count-descending, original (insertion) order preserved
among equal counts. -/
def sortByCountDesc : List (String × ℕ) → List (String × ℕ)
  | [] => []
  | x :: xs => insertByCountDesc x (sortByCountDesc xs)

/-- Embeds `dict(sorted(languages.items(), key=lambda x: x[1],
reverse=True)[:5])`: the `top_languages` value of the GitHub summary. -/
def topLanguages (repos : List GhRepo) : List (String × ℕ) :=
  (sortByCountDesc (langCounts repos)).take 5

/-- Spec-side helper for the tie-order statement: the sequence of
truthy languages in the order the platform returned the repositories. -/
def repoLangOccurrences (repos : List GhRepo) : List String :=
  repos.filterMap (fun r => if truthyLang r.language then some (r.language.getD "") else none)

/-- Spec-side helper: first occurrences of a list of strings, in
order (the order in which each language first appears). -/
def firstAppearancesAux (seen : List String) : List String → List String
  | [] => []
  | x :: xs =>
    if x ∈ seen then firstAppearancesAux seen xs
    else x :: firstAppearancesAux (x :: seen) xs

/-- First occurrences starting from nothing seen. -/
def firstAppearances (l : List String) : List String :=
  firstAppearancesAux [] l

/-! ## Codeforces adapter solved-problem count (`fetch_codeforces_stats`, server.py lines 236-262) -/

/-- The `problem` sub-dict of a Codeforces submission; `contestId` and
`index` are accessed with mandatory indexing in the source. -/
structure CfProblem where
  contestId : ℤ
  index : String
deriving DecidableEq, Repr

/-- A Codeforces submission as read by the solved-problems loop:
`verdict` is read with `submission.get('verdict')`. -/
structure CfSubmission where
  verdict : Option String
  problem : CfProblem
deriving DecidableEq, Repr

/-- Embeds the identifier expression interpolating `contestId` and `index` of a submission's problem with a hyphen between them. -/
def problemIdOf (s : CfSubmission) : String :=
  toString s.problem.contestId ++ "-" ++ s.problem.index

/-- The `solved_problems` set built by the submissions loop: insert the
problem identifier of every submission whose verdict equals `'OK'`. -/
def solvedProblemsSet (subs : List CfSubmission) : Finset String :=
  subs.foldl (fun acc s => if s.verdict = some "OK" then insert (problemIdOf s) acc else acc) ∅

/-- Value `len(solved_problems)`: the `problems_solved` activity value of the
Codeforces summary. -/
def problemsSolvedCount (subs : List CfSubmission) : ℕ :=
  (solvedProblemsSet subs).card

/-! ## Orchestrator (`analyze_user_profile`, server.py lines 398-420) -/

/-- The GitHub summary as stored in `activity_data`; of its fields the
code modelled here reads only `activity.top_languages` (the fallback
generator), so the remaining profile/activity fields are elided. -/
structure GhSummaryData where
  top_languages : List (String × ℕ)
deriving DecidableEq, Repr

/-- The Codeforces summary as stored in `activity_data`; of its fields
the code modelled here reads only `activity.current_rating`, the rest
is elided. -/
structure CfSummaryData where
  current_rating : ℤ
deriving DecidableEq, Repr

/-- A value of the `activity_data` dict: either the `{'error': msg}`
dict written by an `except` arm of `analyze_user_profile`, or one of
the adapters' summary dicts (for LeetCode, either of its two output
shapes). -/
inductive ActivityEntry where
  | errDict : (msg : String) → ActivityEntry
  | githubSummary : GhSummaryData → ActivityEntry
  | leetcodeSummary : LCSummary → ActivityEntry
  | leetcodeErrSummary : (profile_username activity_note error : String) → ActivityEntry
  | codeforcesSummary : CfSummaryData → ActivityEntry
deriving DecidableEq, Repr

/-- The LeetCode adapter result as an `activity_data` value. -/
def lcResultEntry : LCResult → ActivityEntry
  | .ok s => .leetcodeSummary s
  | .err u note e => .leetcodeErrSummary u note e

/-- The `activity_data`-assembly section of `analyze_user_profile`
(lines 398-420): for each platform whose username was supplied, call
the adapter inside `try`/`except` and store either its summary or
`{'error': str(e)}` under the platform's key.  The GitHub and
Codeforces adapters may raise (modelled by `Except`); the LeetCode
adapter is total.  The dict is modelled as an insertion-ordered
association list. -/
def buildActivityData (github_username leetcode_username codeforces_username : Option String)
    (fetchGh : String → Except String GhSummaryData)
    (fetchLc : String → LCResult)
    (fetchCf : String → Except String CfSummaryData) :
    List (String × ActivityEntry) :=
  (match github_username with
   | some u =>
     [("github", match fetchGh u with
       | .ok s => .githubSummary s
       | .error e => .errDict e)]
   | none => []) ++
  (match leetcode_username with
   | some u => [("leetcode", lcResultEntry (fetchLc u))]
   | none => []) ++
  (match codeforces_username with
   | some u =>
     [("codeforces", match fetchCf u with
       | .ok s => .codeforcesSummary s
       | .error e => .errDict e)]
   | none => [])

/-! ## Fallback recommendations (`_create_fallback_recommendations`, server.py lines 327-391) -/

/-- One recommendation dict, with the fixed key set used by both the
fallback generator and the prompt contract. -/
structure Recommendation where
  type : String
  title : String
  description : String
  difficulty : String
  time_estimate : String
  resources : List String
deriving DecidableEq, Repr

/-- Embeds `activity_data.get(key, dict())` on the association-list dict: `none`
stands for the `{}` default (falsy); every stored `ActivityEntry` is a
non-empty dict, hence truthy. -/
def pyLookup (m : List (String × ActivityEntry)) (k : String) : Option ActivityEntry :=
  match m.find? (fun p => p.1 == k) with
  | some p => some p.2
  | none => none

/-- Python truthiness of `entry.get('activity')`: the error dict has no
`'activity'` key (`None`, falsy); every summary dict carries a
non-empty `activity` dict (the LeetCode error summary's is
`{'note': ...}`), which is truthy. -/
def activityTruthy : ActivityEntry → Bool
  | .errDict _ => false
  | .githubSummary _ => true
  | .leetcodeSummary _ => true
  | .leetcodeErrSummary _ _ _ => true
  | .codeforcesSummary _ => true

/-- Python truthiness of `not entry['activity'].get('top_languages',
{})`: for a GitHub summary this is emptiness of its `top_languages`
dict; every other activity dict has no `top_languages` key, so the
default `{}` is falsy and the test is true. -/
def topLanguagesFalsy : ActivityEntry → Bool
  | .githubSummary s => s.top_languages.isEmpty
  | _ => true

/-- Value of `entry['activity'].get('current_rating', 0)`: only a Codeforces
summary carries the key; every other activity dict yields the default
0. -/
def currentRatingOf : ActivityEntry → ℤ
  | .codeforcesSummary s => s.current_rating
  | _ => 0

/-- The "Start Your First Repository" recommendation literal. -/
def firstRepoRec : Recommendation :=
  { type := "project"
    title := "Start Your First Repository"
    description := "Create your first GitHub repository with a simple project in your preferred programming language"
    difficulty := "beginner"
    time_estimate := "2-3 hours"
    resources := ["https://github.com", "https://docs.github.com/en/get-started"] }

/-- The "Solve Basic Algorithms Problems" recommendation literal. -/
def basicAlgorithmsRec : Recommendation :=
  { type := "problem"
    title := "Solve Basic Algorithms Problems"
    description := "Practice fundamental algorithms and data structures on Codeforces"
    difficulty := "beginner"
    time_estimate := "1 hour daily"
    resources := ["https://codeforces.com/problemset"] }

/-- The full-stack web recommendation literal; its description
interpolates the domain string. -/
def fullStackWebRec (domain : String) : Recommendation :=
  { type := "project"
    title := "Build a Full-Stack Web Application"
    description := "Create a complete web application to enhance your " ++ domain ++ " skills"
    difficulty := "intermediate"
    time_estimate := "2-4 weeks"
    resources := ["https://developer.mozilla.org", "https://reactjs.org"] }

/-- The generic "Master Data Structures and Algorithms" literal. -/
def masterDsaRec : Recommendation :=
  { type := "learning"
    title := "Master Data Structures and Algorithms"
    description := "Build a strong foundation in computer science fundamentals"
    difficulty := "intermediate"
    time_estimate := "3-6 months"
    resources := ["https://leetcode.com", "https://codeforces.com"] }

/-- The generic "Build a Portfolio Project" literal. -/
def portfolioRec : Recommendation :=
  { type := "project"
    title := "Build a Portfolio Project"
    description := "Create a project that showcases your skills in your domain of interest"
    difficulty := "intermediate"
    time_estimate := "2-4 weeks"
    resources := ["https://github.com"] }

/-- Python's substring test `pat in l` on character lists: `pat` is a
prefix of some suffix of `l`. -/
def containsSub (l pat : List Char) : Bool :=
  pat.isPrefixOf l ||
    match l with
    | [] => false
    | _ :: cs => containsSub cs pat

/-- Embeds the test `"web" in domain.lower()` (lower-casing char by char; on the ASCII
strings involved this agrees with Python's `str.lower`). -/
def webInDomain (domain : String) : Bool :=
  containsSub (domain.toList.map Char.toLower) "web".toList

/-- Embeds `_create_fallback_recommendations(activity_data, goal, domain)`.
Three guarded appends (GitHub languages, Codeforces rating, web
domain), then the two generic recommendations when nothing was
appended.  The `goal` argument is accepted but never read, as in the
source. -/
def createFallbackRecommendations (activity_data : List (String × ActivityEntry))
    (goal domain : String) : List Recommendation :=
  let githubRecs : List Recommendation :=
    match pyLookup activity_data "github" with
    | some g => if activityTruthy g && topLanguagesFalsy g then [firstRepoRec] else []
    | none => []
  let codeforcesRecs : List Recommendation :=
    match pyLookup activity_data "codeforces" with
    | some c => if activityTruthy c && decide (currentRatingOf c < 1200) then [basicAlgorithmsRec] else []
    | none => []
  let domainRecs : List Recommendation :=
    if webInDomain domain then [fullStackWebRec domain] else []
  let recommendations := githubRecs ++ codeforcesRecs ++ domainRecs
  if recommendations.isEmpty then [masterDsaRec, portfolioRec] else recommendations

/-! ## Recommendation engine (`generate_recommendations`, server.py lines 272-324) -/

/-- Embeds `text.find('[')`: index of the first occurrence, `none` for
Python's -1. -/
def findIdxOfChar (c : Char) (l : List Char) : Option ℕ :=
  l.findIdx? (fun x => x == c)

/-- Embeds `text.rfind(']')`: index of the last occurrence, `none` for
Python's -1 (in the source `end_idx = rfind + 1`, and the guard
`end_idx != 0` is exactly "some occurrence exists"). -/
def rfindIdxOfChar (c : Char) (l : List Char) : Option ℕ :=
  match (l.reverse).findIdx? (fun x => x == c) with
  | some i => some (l.length - 1 - i)
  | none => none

/-- The span `response_text[start_idx:end_idx]` with `start_idx` the
first `'['` and `end_idx` one past the last `']'`; `none` when either
marker is missing (`start_idx == -1 or end_idx == 0`).  As in Python,
a last `']'` before the first `'['` yields the empty slice. -/
def extractJsonSpan (text : List Char) : Option (List Char) :=
  match findIdxOfChar '[' text, rfindIdxOfChar ']' text with
  | some s, some e => some ((text.drop s).take (e + 1 - s))
  | some _, none => none
  | none, _ => none

/-- Embeds `generate_recommendations(activity_data, goal, domain)`.  The two
external effects are parameters of the embedding: `modelResp` is the
model invocation (`.error` when `model.generate_content` or reading
`response.text` raises), and `parse` stands for `json.loads` on the
extracted span (`none` when it raises `JSONDecodeError`).  Every
failure arm returns the fallback generator's output; the success arm
returns the parsed array as-is. -/
def generate_recommendations (parse : String → Option (List Recommendation))
    (modelResp : Except String String)
    (activity_data : List (String × ActivityEntry)) (goal domain : String) :
    List Recommendation :=
  match modelResp with
  | .error _ => createFallbackRecommendations activity_data goal domain
  | .ok text =>
    match extractJsonSpan text.toList with
    | none => createFallbackRecommendations activity_data goal domain
    | some span =>
      match parse (String.mk span) with
      | some recs => recs
      | none => createFallbackRecommendations activity_data goal domain

/-! ## Persistence and lookup (`analyze_user_profile` lines 428-451, `get_user_analysis` lines 464-482) -/

/-- A stored `user_profiles` document; of its fields only `id` is read
by `get_user_analysis`, the rest is elided. -/
structure UserProfileRecord where
  id : String
deriving DecidableEq, Repr

/-- A stored `ai_recommendations` document.  `generated_at` is the
ISO-8601 generation timestamp; since ISO-8601 strings compare in time
order, it is modelled as a natural number. -/
structure AiRecommendationRecord where
  id : String
  user_id : String
  recommendations : List Recommendation
  generated_at : ℕ
deriving DecidableEq, Repr

/-- One step of selecting the greatest document by `generated_at`
(keeping the earlier document on ties). -/
def pickLatest (best : Option AiRecommendationRecord) (r : AiRecommendationRecord) :
    Option AiRecommendationRecord :=
  match best with
  | none => some r
  | some b => if b.generated_at < r.generated_at then some r else some b

/-- Embeds `db.ai_recommendations.find_one({'user_id': user_id},
sort=[('generated_at', -1)])`: among the documents whose `user_id`
matches, the one greatest by `generated_at` (the first such document
when several tie). -/
def findLatestRecommendation (store : List AiRecommendationRecord) (uid : String) :
    Option AiRecommendationRecord :=
  (store.filter (fun r => r.user_id == uid)).foldl pickLatest none

/-- Embeds `get_user_analysis(user_id)`: 404 (`.error`) when no profile
document matches, otherwise the profile together with the latest
matching recommendation list (`[]` when none is stored). -/
def get_user_analysis (profiles : List UserProfileRecord)
    (recStore : List AiRecommendationRecord) (user_id : String) :
    Except String (UserProfileRecord × List Recommendation) :=
  match profiles.find? (fun p => p.id == user_id) with
  | none => .error "User not found"
  | some p =>
    .ok (p, match findLatestRecommendation recStore user_id with
            | some r => r.recommendations
            | none => [])

/-- The two persistence writes of one `analyze_user_profile` request:
append a fresh profile document and a recommendation document that
references it. -/
def analyzeStoreStep (profiles : List UserProfileRecord)
    (recStore : List AiRecommendationRecord)
    (profile_id rec_id : String) (recs : List Recommendation) (now : ℕ) :
    List UserProfileRecord × List AiRecommendationRecord :=
  (profiles ++ [{ id := profile_id }],
   recStore ++ [{ id := rec_id, user_id := profile_id, recommendations := recs, generated_at := now }])

/-! ## Spec-side definitions

These follow the wording of design statements rather than the source,
for comparison with the embedded code. -/

/-- Claim-side first-rule guard, as the claim words it: "the code-host
summary exists and lists no languages" — the summary stored under
`github` has an empty or absent language list. -/
def ghRuleFiresClaimed (activity_data : List (String × ActivityEntry)) : Bool :=
  match pyLookup activity_data "github" with
  | some g => topLanguagesFalsy g
  | none => false

/-- Claim-side second-rule guard, as the claim words it: "the
competitive-judge summary exists and its current rating is below 1200"
(an absent rating reads as the `dict.get` default 0). -/
def cfRuleFiresClaimed (activity_data : List (String × ActivityEntry)) : Bool :=
  match pyLookup activity_data "codeforces" with
  | some c => decide (currentRatingOf c < 1200)
  | none => false

/-- The fallback output as the claim describes it: the three rule
outputs in order, else the two generic recommendations. -/
def fallbackSpecClaimed (activity_data : List (String × ActivityEntry)) (domain : String) :
    List Recommendation :=
  let base :=
    (if ghRuleFiresClaimed activity_data then [firstRepoRec] else []) ++
    (if cfRuleFiresClaimed activity_data then [basicAlgorithmsRec] else []) ++
    (if webInDomain domain then [fullStackWebRec domain] else [])
  if base = [] then [masterDsaRec, portfolioRec] else base

/-- Amended first-rule guard: the code-host summary exists **with a
populated activity block** and lists no languages. -/
def ghRuleFiresAmended (activity_data : List (String × ActivityEntry)) : Bool :=
  match pyLookup activity_data "github" with
  | some g => activityTruthy g && topLanguagesFalsy g
  | none => false

/-- Amended second-rule guard: the competitive-judge summary exists
**with a populated activity block** and its current rating (default 0)
is below 1200. -/
def cfRuleFiresAmended (activity_data : List (String × ActivityEntry)) : Bool :=
  match pyLookup activity_data "codeforces" with
  | some c => activityTruthy c && decide (currentRatingOf c < 1200)
  | none => false

/-- The fallback output under the amended rules. -/
def fallbackSpecAmended (activity_data : List (String × ActivityEntry)) (domain : String) :
    List Recommendation :=
  let base :=
    (if ghRuleFiresAmended activity_data then [firstRepoRec] else []) ++
    (if cfRuleFiresAmended activity_data then [basicAlgorithmsRec] else []) ++
    (if webInDomain domain then [fullStackWebRec domain] else [])
  if base = [] then [masterDsaRec, portfolioRec] else base

/-- Spec-side projection for the C10 invariance statement: an
`LCStatEntry` without its `submissions` field. -/
def dropSubmissions (e : LCStatEntry) : Option String × Option ℤ :=
  (e.difficulty, e.count)

/-- Spec-side projection for the C10 invariance statement: an activity
block with the `acceptance_rate` field blanked. -/
def eraseAcceptance (a : LCActivityOut) : LCActivityOut :=
  { a with acceptance_rate := "" }

/-! ## Concrete inputs used by witnesses and counterexamples -/

/-- A LeetCode `profile` block with every optional field absent. -/
def lcProfileDataEmpty : LCProfileData :=
  ⟨none, none, none, none, none, none, none, none⟩

/-- A LeetCode response body with empty statistics lists — in
particular the `'All'`-difficulty entry of `totalSubmissionNum` is
absent. -/
def lcDataEmpty : LCData :=
  ⟨lcProfileDataEmpty, [], []⟩

/-- A LeetCode response body whose `totalSubmissionNum` has one `'All'`
entry with 50 accepted out of 200 submitted. -/
def lcDataAll50of200 : LCData :=
  ⟨lcProfileDataEmpty, [], [⟨some "All", some 50, some 200⟩]⟩

/-- The `totalSubmissionNum` of `lcDataAll50of200` with only the
`submissions` field changed (200 ↦ 999). -/
def lcTsnSubsChanged : List LCStatEntry :=
  [⟨some "All", some 50, some 999⟩]

/-- Repositories realising language counts Go:3, Rust:5, Python:5,
with Rust first appearing before Python. -/
def ghExampleRepos : List GhRepo :=
  [⟨some "Go"⟩, ⟨some "Rust"⟩, ⟨some "Python"⟩, ⟨some "Rust"⟩, ⟨some "Python"⟩,
   ⟨some "Rust"⟩, ⟨some "Python"⟩, ⟨some "Rust"⟩, ⟨some "Python"⟩, ⟨some "Rust"⟩,
   ⟨some "Python"⟩, ⟨some "Go"⟩, ⟨some "Go"⟩]

/-- Two submissions, both `'OK'`, to the same problem `100-A`. -/
def cfDupSubmissions : List CfSubmission :=
  [⟨some "OK", ⟨100, "A"⟩⟩, ⟨some "OK", ⟨100, "A"⟩⟩]

/-- An `activity_data` map whose GitHub and Codeforces entries are both
orchestrator-written error dicts (total adapter failure). -/
def cexActivity : List (String × ActivityEntry) :=
  [("github", .errDict "boom"), ("codeforces", .errDict "down")]

/-! ## Theorems -/


lemma fallbackDefault_ne_nil (l : List Recommendation) :
    (if l.isEmpty then [masterDsaRec, portfolioRec] else l) ≠ [] := by
  by_cases h : l.isEmpty = true
  · simp [h]
  · rw [if_neg h]
    simpa using h

/-- C3: for every activity map, including the empty map, and for every
goal and domain string, the fallback recommendation generator
`createFallbackRecommendations` returns a non-empty sequence of
recommendations. -/
theorem claim3_fallback_nonempty (activity_data : List (String × ActivityEntry))
    (goal domain : String) :
    createFallbackRecommendations activity_data goal domain ≠ [] := by
  unfold createFallbackRecommendations
  exact fallbackDefault_ne_nil _

/-- C8: the LeetCode adapter never raises (it is a total function of
the modelled call outcome); on a network/decoding failure and on a
non-success status it returns the error summary whose profile contains
only the username and whose `error` field holds the failure message. -/
theorem claim8_error_shape :
    (∀ username e, fetch_leetcode_stats username (.error e) =
        .err username "Unable to fetch LeetCode data" e) ∧
    (∀ username status data, status ≠ 200 →
      fetch_leetcode_stats username (.ok (status, data)) =
        .err username "Unable to fetch LeetCode data"
          ("404: LeetCode user " ++ username ++ " not found")) :=
  ⟨fun _ _ => rfl, fun u st d h => by
    simp only [fetch_leetcode_stats]
    rw [if_pos h]⟩

/-- Witness for C8 at concrete inputs. -/
theorem claim8_witness :
    fetch_leetcode_stats "alice" (.error "boom") =
      .err "alice" "Unable to fetch LeetCode data" "boom" ∧
    fetch_leetcode_stats "alice" (.ok (404, lcDataEmpty)) =
      .err "alice" "Unable to fetch LeetCode data" ("404: LeetCode user " ++ "alice" ++ " not found") :=
  ⟨claim8_error_shape.1 "alice" "boom",
   claim8_error_shape.2 "alice" 404 lcDataEmpty (by decide)⟩

lemma firstAllEntry_cons (e : LCStatEntry) (l : List LCStatEntry) :
    firstAllEntry (e :: l) = if e.difficulty = some "All" then some e else firstAllEntry l := by
  by_cases h : e.difficulty = some "All"
  · rw [if_pos h]; exact List.find?_cons_of_pos _ (by simpa using h)
  · rw [if_neg h]; exact List.find?_cons_of_neg _ (by simpa using h)

lemma totalAcceptedOf_cons (e : LCStatEntry) (l : List LCStatEntry) :
    totalAcceptedOf (e :: l) =
      if e.difficulty = some "All" then e.count.getD 0 else totalAcceptedOf l := by
  by_cases h : e.difficulty = some "All" <;>
    simp [totalAcceptedOf, firstAllEntry_cons, h]

lemma totalAcceptedOf_congr : ∀ {l l' : List LCStatEntry},
    l.map dropSubmissions = l'.map dropSubmissions →
    totalAcceptedOf l = totalAcceptedOf l' := by
  intro l
  induction l with
  | nil =>
    intro l' h
    cases l' with
    | nil => rfl
    | cons b bs => simp at h
  | cons a as ih =>
    intro l' h
    cases l' with
    | nil => simp at h
    | cons b bs =>
      simp only [List.map_cons, List.cons.injEq, dropSubmissions, Prod.mk.injEq] at h
      obtain ⟨⟨hd, hc⟩, ht⟩ := h
      rw [totalAcceptedOf_cons, totalAcceptedOf_cons, hd, hc, ih ht]

lemma firstAllEntry_none_of_forall {l : List LCStatEntry}
    (h : ∀ e ∈ l, e.difficulty ≠ some "All") : firstAllEntry l = none := by
  apply List.find?_eq_none.mpr
  intro e he
  simpa using h e he

/-- C2 (amended): the `acceptance_rate` field of every successful
LeetCode summary equals `acceptanceRateString` of the extracted
accepted/submitted numbers — accepted divided by `max(submitted, 1)`,
times 100, rounded to one decimal, rendered as a one-decimal percentage
string when submitted > 0, and `"0%"` otherwise; with accepted=50 and
submitted=200 it is exactly `"25.0%"`, and when the `'All'`-difficulty
denominator entry is absent (submitted defaulting to 1 and accepted to
0) it is exactly `"0.0%"`. -/
theorem claim2_amended_theorem :
    (∀ username (data : LCData),
      lcAcceptanceOf (fetch_leetcode_stats username (.ok (200, data))) =
        some (acceptanceRateString (totalAcceptedOf data.totalSubmissionNum)
          (totalSubmittedOf data.totalSubmissionNum))) ∧
    (∀ username (data : LCData),
      (∀ e ∈ data.totalSubmissionNum, e.difficulty ≠ some "All") →
      lcAcceptanceOf (fetch_leetcode_stats username (.ok (200, data))) = some "0.0%") ∧
    (∀ username (data : LCData),
      data.totalSubmissionNum = [⟨some "All", some 50, some 200⟩] →
      lcAcceptanceOf (fetch_leetcode_stats username (.ok (200, data))) = some "25.0%") := by
  have base : ∀ username (data : LCData),
      lcAcceptanceOf (fetch_leetcode_stats username (.ok (200, data))) =
        some (acceptanceRateString (totalAcceptedOf data.totalSubmissionNum)
          (totalSubmittedOf data.totalSubmissionNum)) := fun _ _ => rfl
  refine ⟨base, ?_, ?_⟩
  · intro u d h
    rw [base u d]
    have h1 : firstAllEntry d.totalSubmissionNum = none := firstAllEntry_none_of_forall h
    simp only [totalAcceptedOf, totalSubmittedOf, h1]
    decide
  · intro u d h
    rw [base u d, h]
    decide

/-- Counterexample to C2 as stated: when the `'All'`-difficulty
denominator entry is absent, the adapter renders `"0.0%"`, which is not
the claimed `"0%"`. -/
theorem claim2_counterexample :
    lcAcceptanceOf (fetch_leetcode_stats "user" (.ok (200, lcDataEmpty))) = some "0.0%" ∧
    ("0.0%" : String) ≠ "0%" := by
  constructor <;> decide

/-- Witness for C2 (amended) at concrete inputs. -/
theorem claim2_witness :
    lcAcceptanceOf (fetch_leetcode_stats "user" (.ok (200, lcDataEmpty))) = some "0.0%" ∧
    lcAcceptanceOf (fetch_leetcode_stats "user" (.ok (200, lcDataAll50of200))) = some "25.0%" :=
  ⟨claim2_amended_theorem.2.1 "user" lcDataEmpty (by simp [lcDataEmpty]),
   claim2_amended_theorem.2.2 "user" lcDataAll50of200 rfl⟩

/-- C10: in every successful LeetCode summary the `total_submissions`
activity field equals the accepted count taken from the `'All'` entry's
`count` field; the `submissions` value influences nothing but the
`acceptance_rate` field (profiles and acceptance-blanked activities
agree when only `submissions` values change); concretely, with
accepted=50 and submitted=200 the field is 50, not 200. -/
theorem claim10_total_submissions :
    (∀ username (data : LCData),
      lcTotalSubmissionsOf (fetch_leetcode_stats username (.ok (200, data))) =
        some (totalAcceptedOf data.totalSubmissionNum)) ∧
    (∀ username (data : LCData) (tsn' : List LCStatEntry),
      tsn'.map dropSubmissions = data.totalSubmissionNum.map dropSubmissions →
      lcProfileOf (fetch_leetcode_stats username (.ok (200, { data with totalSubmissionNum := tsn' }))) =
        lcProfileOf (fetch_leetcode_stats username (.ok (200, data))) ∧
      (lcActivityOf (fetch_leetcode_stats username (.ok (200, { data with totalSubmissionNum := tsn' })))).map eraseAcceptance =
        (lcActivityOf (fetch_leetcode_stats username (.ok (200, data)))).map eraseAcceptance) ∧
    (lcTotalSubmissionsOf (fetch_leetcode_stats "user" (.ok (200, lcDataAll50of200))) = some 50 ∧
      (50 : ℤ) ≠ 200) := by
  refine ⟨fun _ _ => rfl, ?_, by constructor <;> decide⟩
  intro u d tsn' h
  have hacc : totalAcceptedOf tsn' = totalAcceptedOf d.totalSubmissionNum := totalAcceptedOf_congr h
  constructor
  · rfl
  · simp only [fetch_leetcode_stats, lcActivityOf]
    simp [hacc, eraseAcceptance]

/-- Witness for C10 at concrete inputs. -/
theorem claim10_witness :
    lcProfileOf (fetch_leetcode_stats "user" (.ok (200, { lcDataAll50of200 with totalSubmissionNum := lcTsnSubsChanged }))) =
      lcProfileOf (fetch_leetcode_stats "user" (.ok (200, lcDataAll50of200))) ∧
    (lcActivityOf (fetch_leetcode_stats "user" (.ok (200, { lcDataAll50of200 with totalSubmissionNum := lcTsnSubsChanged })))).map eraseAcceptance =
      (lcActivityOf (fetch_leetcode_stats "user" (.ok (200, lcDataAll50of200)))).map eraseAcceptance :=
  claim10_total_submissions.2.1 "user" lcDataAll50of200 lcTsnSubsChanged (by decide)

lemma solvedProblems_foldl (subs : List CfSubmission) :
    ∀ acc : Finset String,
      subs.foldl (fun acc s => if s.verdict = some "OK" then insert (problemIdOf s) acc else acc) acc =
        acc ∪ ((subs.filter (fun s => s.verdict == some "OK")).map problemIdOf).toFinset := by
  induction subs with
  | nil => intro acc; simp
  | cons a as ih =>
    intro acc
    by_cases h : a.verdict = some "OK"
    · simp only [List.foldl_cons, if_pos h, List.filter_cons, h]
      rw [ih]
      simp [Finset.insert_union, Finset.union_insert]
    · simp only [List.foldl_cons, if_neg h, List.filter_cons]
      have hb : (a.verdict == some "OK") = false := by simpa using h
      rw [hb]
      simp only [ih, if_false]
      simp

/-- C4: the Codeforces `problems_solved` count equals the cardinality
of the set of `contestId-index` identifier strings over the fetched
submissions whose verdict equals `'OK'`; in particular two `'OK'`
submissions to problem `100-A` contribute exactly 1. -/
theorem claim4_solved_dedup :
    (∀ subs : List CfSubmission,
      problemsSolvedCount subs =
        (((subs.filter (fun s => s.verdict == some "OK")).map problemIdOf).toFinset).card) ∧
    problemsSolvedCount cfDupSubmissions = 1 := by
  constructor
  · intro subs
    unfold problemsSolvedCount solvedProblemsSet
    rw [solvedProblems_foldl]
    simp
  · decide

/-- C1: for every analyze-profile request, the `activity_data` map
built by `buildActivityData` has a key for exactly the platforms whose
username was supplied (membership iff the username is present), never a
key for an unrequested platform (every key is one of the three platform
tags), and exactly one entry per requested platform (keys are nodup) —
for arbitrary adapter behaviour, including total failure. -/
theorem claim1_requested_keys (github_username leetcode_username codeforces_username : Option String)
    (fetchGh : String → Except String GhSummaryData) (fetchLc : String → LCResult)
    (fetchCf : String → Except String CfSummaryData) :
    (("github" ∈ (buildActivityData github_username leetcode_username codeforces_username fetchGh fetchLc fetchCf).map Prod.fst) ↔ github_username.isSome) ∧
    (("leetcode" ∈ (buildActivityData github_username leetcode_username codeforces_username fetchGh fetchLc fetchCf).map Prod.fst) ↔ leetcode_username.isSome) ∧
    (("codeforces" ∈ (buildActivityData github_username leetcode_username codeforces_username fetchGh fetchLc fetchCf).map Prod.fst) ↔ codeforces_username.isSome) ∧
    ((buildActivityData github_username leetcode_username codeforces_username fetchGh fetchLc fetchCf).map Prod.fst).Nodup ∧
    (∀ k ∈ (buildActivityData github_username leetcode_username codeforces_username fetchGh fetchLc fetchCf).map Prod.fst,
      k = "github" ∨ k = "leetcode" ∨ k = "codeforces") := by
  cases github_username <;> cases leetcode_username <;> cases codeforces_username <;>
    simp [buildActivityData]

lemma findIdxOfChar_eq_none_iff (c : Char) (l : List Char) :
    findIdxOfChar c l = none ↔ c ∉ l := by
  unfold findIdxOfChar
  rw [List.findIdx?_eq_none_iff]
  constructor
  · intro h hmem
    have := h c hmem
    simp at this
  · intro h x hx
    simp only [beq_eq_false_iff_ne, ne_eq]
    intro he
    exact h (he ▸ hx)

lemma rfindIdxOfChar_eq_none_iff (c : Char) (l : List Char) :
    rfindIdxOfChar c l = none ↔ c ∉ l := by
  unfold rfindIdxOfChar
  constructor
  · intro h hmem
    cases hf : l.reverse.findIdx? (fun x => x == c) with
    | some i => rw [hf] at h; simp at h
    | none =>
      rw [List.findIdx?_eq_none_iff] at hf
      have := hf c (by simpa using hmem)
      simp at this
  · intro h
    have hf : l.reverse.findIdx? (fun x => x == c) = none := by
      rw [List.findIdx?_eq_none_iff]
      intro x hx
      simp only [beq_eq_false_iff_ne, ne_eq]
      intro he
      exact h (he ▸ List.mem_reverse.mp hx)
    rw [hf]

lemma extractJsonSpan_eq_none_iff (text : List Char) :
    extractJsonSpan text = none ↔ ('[' ∉ text ∨ ']' ∉ text) := by
  unfold extractJsonSpan
  cases h1 : findIdxOfChar '[' text with
  | none => simp [(findIdxOfChar_eq_none_iff _ _).mp h1]
  | some s =>
    cases h2 : rfindIdxOfChar ']' text with
    | none => simp [(rfindIdxOfChar_eq_none_iff _ _).mp h2]
    | some e =>
      have m1 : '[' ∈ text := by
        by_contra hm
        rw [(findIdxOfChar_eq_none_iff _ _).mpr hm] at h1
        exact Option.noConfusion h1
      have m2 : ']' ∈ text := by
        by_contra hm
        rw [(rfindIdxOfChar_eq_none_iff _ _).mpr hm] at h2
        exact Option.noConfusion h2
      simp [m1, m2]

/-- C6: the recommendation engine extracts the span from the first
`'['` to the last `']'` of the model text; when the model call raises,
when either marker is missing, or when the span fails to parse, it
returns exactly the fallback generator's output, and when the span
parses it returns exactly the parsed array; extraction fails precisely
when the text has no `'['` or no `']'`. -/
theorem claim6_engine_paths :
    (∀ (parse : String → Option (List Recommendation)) activity_data goal domain e,
      generate_recommendations parse (.error e) activity_data goal domain =
        createFallbackRecommendations activity_data goal domain) ∧
    (∀ (parse : String → Option (List Recommendation)) activity_data goal domain text,
      extractJsonSpan text.toList = none →
      generate_recommendations parse (.ok text) activity_data goal domain =
        createFallbackRecommendations activity_data goal domain) ∧
    (∀ (parse : String → Option (List Recommendation)) activity_data goal domain text span,
      extractJsonSpan text.toList = some span →
      parse (String.mk span) = none →
      generate_recommendations parse (.ok text) activity_data goal domain =
        createFallbackRecommendations activity_data goal domain) ∧
    (∀ (parse : String → Option (List Recommendation)) activity_data goal domain text span recs,
      extractJsonSpan text.toList = some span →
      parse (String.mk span) = some recs →
      generate_recommendations parse (.ok text) activity_data goal domain = recs) ∧
    (∀ text : List Char, extractJsonSpan text = none ↔ ('[' ∉ text ∨ ']' ∉ text)) ∧
    (∀ (text : List Char) s e,
      findIdxOfChar '[' text = some s → rfindIdxOfChar ']' text = some e →
      extractJsonSpan text = some ((text.drop s).take (e + 1 - s))) := by
  refine ⟨fun _ _ _ _ _ => rfl, ?_, ?_, ?_, extractJsonSpan_eq_none_iff, ?_⟩
  · intro parse ad g d text h
    simp only [String.toList] at h
    simp [generate_recommendations, h]
  · intro parse ad g d text span h hp
    simp only [String.toList] at h
    simp [generate_recommendations, h, hp]
  · intro parse ad g d text span recs h hp
    simp only [String.toList] at h
    simp [generate_recommendations, h, hp]
  · intro text s e h1 h2
    unfold extractJsonSpan
    rw [h1, h2]

/-- Witness for C6 at concrete inputs. -/
theorem claim6_witness :
    generate_recommendations (fun _ => none) (.ok "no markers") [] "goal" "domain" =
      createFallbackRecommendations [] "goal" "domain" ∧
    generate_recommendations (fun _ => none) (.ok "a[1]b") [] "goal" "domain" =
      createFallbackRecommendations [] "goal" "domain" ∧
    generate_recommendations (fun _ => some [firstRepoRec]) (.ok "a[1]b") [] "goal" "domain" =
      [firstRepoRec] ∧
    extractJsonSpan ("a[1]b".toList) = some ((("a[1]b".toList).drop 1).take (3 + 1 - 1)) :=
  ⟨claim6_engine_paths.2.1 _ _ _ _ _ (by decide),
   claim6_engine_paths.2.2.1 _ _ _ _ _ ['[', '1', ']'] (by decide) rfl,
   claim6_engine_paths.2.2.2.1 _ _ _ _ _ ['[', '1', ']'] [firstRepoRec] (by decide) rfl,
   claim6_engine_paths.2.2.2.2.2 _ 1 3 (by decide) (by decide)⟩

lemma pickLatest_fold_some (l : List AiRecommendationRecord) :
    ∀ b : AiRecommendationRecord, (l.foldl pickLatest (some b)).isSome := by
  induction l with
  | nil => intro b; rfl
  | cons a as ih =>
    intro b
    simp only [List.foldl_cons, pickLatest]
    by_cases h : b.generated_at < a.generated_at
    · rw [if_pos h]; exact ih a
    · rw [if_neg h]; exact ih b

lemma pickLatest_fold_spec (l : List AiRecommendationRecord) :
    ∀ (acc : Option AiRecommendationRecord) (x : AiRecommendationRecord),
      l.foldl pickLatest acc = some x →
      (x ∈ l ∨ acc = some x) ∧
      (∀ y ∈ l, y.generated_at ≤ x.generated_at) ∧
      (∀ b, acc = some b → b.generated_at ≤ x.generated_at) := by
  induction l with
  | nil =>
    intro acc x h
    simp only [List.foldl_nil] at h
    exact ⟨Or.inr h, by simp, fun b hb => by rw [hb] at h; cases h; exact le_refl _⟩
  | cons a as ih =>
    intro acc x h
    simp only [List.foldl_cons] at h
    cases acc with
    | none =>
      simp only [pickLatest] at h
      obtain ⟨hmem, hdom, hacc⟩ := ih (some a) x h
      have hat : a.generated_at ≤ x.generated_at := hacc a rfl
      refine ⟨?_, fun y hy => ?_, by simp⟩
      · rcases hmem with hx | hx
        · exact Or.inl (List.mem_cons_of_mem _ hx)
        · exact Or.inl (by simp only [Option.some.injEq] at hx; rw [← hx]; exact List.mem_cons_self _ _)
      · rcases List.mem_cons.mp hy with hy | hy
        · exact hy ▸ hat
        · exact hdom y hy
    | some b =>
      simp only [pickLatest] at h
      by_cases hc : b.generated_at < a.generated_at
      · rw [if_pos hc] at h
        obtain ⟨hmem, hdom, hacc⟩ := ih (some a) x h
        have hat : a.generated_at ≤ x.generated_at := hacc a rfl
        refine ⟨?_, fun y hy => ?_, fun b' hb' => ?_⟩
        · rcases hmem with hx | hx
          · exact Or.inl (List.mem_cons_of_mem _ hx)
          · exact Or.inl (by simp only [Option.some.injEq] at hx; rw [← hx]; exact List.mem_cons_self _ _)
        · rcases List.mem_cons.mp hy with hy | hy
          · exact hy ▸ hat
          · exact hdom y hy
        · cases hb'
          exact le_trans (le_of_lt hc) hat
      · rw [if_neg hc] at h
        obtain ⟨hmem, hdom, hacc⟩ := ih (some b) x h
        have hbt : b.generated_at ≤ x.generated_at := hacc b rfl
        have hat : a.generated_at ≤ x.generated_at := le_trans (not_lt.mp hc) hbt
        refine ⟨?_, fun y hy => ?_, fun b' hb' => ?_⟩
        · rcases hmem with hx | hx
          · exact Or.inl (List.mem_cons_of_mem _ hx)
          · exact Or.inr hx
        · rcases List.mem_cons.mp hy with hy | hy
          · exact hy ▸ hat
          · exact hdom y hy
        · cases hb'
          exact hbt

/-- C9: when a profile identifier is looked up, the recommendation
list returned is the one of the strictly most recent stored record (by
`generated_at`) among the records for that identifier. -/
theorem claim9_latest_lookup (profiles : List UserProfileRecord)
    (recStore : List AiRecommendationRecord) (user_id : String)
    (p : UserProfileRecord) (r : AiRecommendationRecord)
    (hp : profiles.find? (fun q => q.id == user_id) = some p)
    (hr : r ∈ recStore) (hru : r.user_id = user_id)
    (hmax : ∀ r' ∈ recStore, r'.user_id = user_id → r' ≠ r →
      r'.generated_at < r.generated_at) :
    get_user_analysis profiles recStore user_id = .ok (p, r.recommendations) := by
  unfold get_user_analysis
  rw [hp]
  have hrf : r ∈ recStore.filter (fun q => q.user_id == user_id) :=
    List.mem_filter.mpr ⟨hr, by simpa using hru⟩
  cases hres : findLatestRecommendation recStore user_id with
  | none =>
    exfalso
    unfold findLatestRecommendation at hres
    obtain ⟨c, cs, hfl⟩ := List.exists_cons_of_ne_nil (List.ne_nil_of_mem hrf)
    rw [hfl] at hres
    simp only [List.foldl_cons, pickLatest] at hres
    have := pickLatest_fold_some cs c
    rw [hres] at this
    simp at this
  | some x =>
    unfold findLatestRecommendation at hres
    obtain ⟨hmem, hdom, -⟩ := pickLatest_fold_spec _ _ _ hres
    have hxmem : x ∈ recStore.filter (fun q => q.user_id == user_id) := by
      rcases hmem with hx | hx
      · exact hx
      · exact Option.noConfusion hx
    have hxin : x ∈ recStore := (List.mem_filter.mp hxmem).1
    have hxu : x.user_id = user_id := by simpa using (List.mem_filter.mp hxmem).2
    have hxr : x = r := by
      by_contra hne
      have h1 := hmax x hxin hxu hne
      have h2 := hdom r hrf
      exact absurd h1 (not_lt.mpr h2)
    rw [hxr]

/-- Witness for C9: a store holding two records for one profile,
written sequentially (timestamps 1 then 2); the lookup returns the
later request's recommendations only. -/
theorem claim9_witness :
    get_user_analysis [⟨"u1"⟩]
      [⟨"r1", "u1", [masterDsaRec], 1⟩, ⟨"r2", "u1", [portfolioRec], 2⟩] "u1" =
      .ok (⟨"u1"⟩, [portfolioRec]) :=
  claim9_latest_lookup [⟨"u1"⟩]
    [⟨"r1", "u1", [masterDsaRec], 1⟩, ⟨"r2", "u1", [portfolioRec], 2⟩] "u1"
    ⟨"u1"⟩ ⟨"r2", "u1", [portfolioRec], 2⟩
    rfl (by simp) rfl (by decide)

/-- Counterexample to C7 as stated: with error-dict summaries under
both the `github` and `codeforces` keys (summaries that exist and list
no languages / have no rating), the claimed rules would emit the
first-repository and basic-algorithms recommendations, but the code
emits the two generic recommendations. -/
theorem claim7_counterexample :
    createFallbackRecommendations cexActivity "improve" "algorithms" =
      [masterDsaRec, portfolioRec] ∧
    fallbackSpecClaimed cexActivity "algorithms" =
      [firstRepoRec, basicAlgorithmsRec] ∧
    createFallbackRecommendations cexActivity "improve" "algorithms" ≠
      fallbackSpecClaimed cexActivity "algorithms" :=
  ⟨by decide, by decide, by decide⟩

/-- C7 (amended): the fallback generator's output is exactly
determined by the rules applied in order, where the first two rules
additionally require the stored summary to have a populated activity
block: first-repository when the code-host summary exists with a
populated activity block listing no languages; basic-algorithms when
the competitive-judge summary exists with a populated activity block
and rating (default 0) below 1200; full-stack-web when the domain
contains "web" case-insensitively; otherwise the two generic
recommendations. -/
theorem claim7_amended_rules (activity_data : List (String × ActivityEntry))
    (goal domain : String) :
    createFallbackRecommendations activity_data goal domain =
      fallbackSpecAmended activity_data domain := by
  cases hg : pyLookup activity_data "github" <;>
    cases hc : pyLookup activity_data "codeforces" <;>
      simp [createFallbackRecommendations, fallbackSpecAmended, ghRuleFiresAmended,
        cfRuleFiresAmended, hg, hc, List.isEmpty_iff]

lemma mem_insertByCountDesc (x z : String × ℕ) (l : List (String × ℕ)) :
    z ∈ insertByCountDesc x l ↔ z = x ∨ z ∈ l := by
  induction l with
  | nil => simp [insertByCountDesc]
  | cons y ys ih =>
    rw [insertByCountDesc]
    by_cases h : x.2 < y.2
    · rw [if_pos h]
      simp only [List.mem_cons, ih]
      tauto
    · rw [if_neg h]
      simp

lemma sorted_insertByCountDesc (x : String × ℕ) (l : List (String × ℕ))
    (h : List.Sorted (fun a b : String × ℕ => b.2 ≤ a.2) l) :
    List.Sorted (fun a b : String × ℕ => b.2 ≤ a.2) (insertByCountDesc x l) := by
  induction l with
  | nil => simp [insertByCountDesc]
  | cons y ys ih =>
    rw [insertByCountDesc]
    by_cases hc : x.2 < y.2
    · rw [if_pos hc]
      rw [List.sorted_cons] at h ⊢
      refine ⟨?_, ih h.2⟩
      intro z hz
      rw [mem_insertByCountDesc] at hz
      rcases hz with rfl | hz
      · exact le_of_lt hc
      · exact h.1 z hz
    · rw [if_neg hc]
      rw [List.sorted_cons]
      refine ⟨?_, h⟩
      intro z hz
      rcases List.mem_cons.mp hz with rfl | hz
      · exact not_lt.mp hc
      · rw [List.sorted_cons] at h
        exact le_trans (h.1 z hz) (not_lt.mp hc)

lemma sorted_sortByCountDesc (l : List (String × ℕ)) :
    List.Sorted (fun a b : String × ℕ => b.2 ≤ a.2) (sortByCountDesc l) := by
  induction l with
  | nil => simp [sortByCountDesc]
  | cons x xs ih => exact sorted_insertByCountDesc x _ ih

lemma filter_insertByCountDesc (x : String × ℕ) (l : List (String × ℕ)) (c : ℕ) :
    (insertByCountDesc x l).filter (fun p => p.2 == c) =
      (x :: l).filter (fun p => p.2 == c) := by
  induction l with
  | nil => rfl
  | cons y ys ih =>
    rw [insertByCountDesc]
    by_cases hc : x.2 < y.2
    · rw [if_pos hc]
      by_cases hx : x.2 = c <;> by_cases hy : y.2 = c
      · omega
      · simp [List.filter_cons, hx, hy, ih]
      · simp [List.filter_cons, hx, hy, ih]
      · simp [List.filter_cons, hx, hy, ih]
    · rw [if_neg hc]

lemma filter_sortByCountDesc (l : List (String × ℕ)) (c : ℕ) :
    (sortByCountDesc l).filter (fun p => p.2 == c) = l.filter (fun p => p.2 == c) := by
  induction l with
  | nil => rfl
  | cons x xs ih =>
    rw [sortByCountDesc, filter_insertByCountDesc, List.filter_cons, List.filter_cons, ih]

lemma bumpLang_keys (l : List (String × ℕ)) (k : String) :
    (bumpLang l k).map Prod.fst =
      if k ∈ l.map Prod.fst then l.map Prod.fst else l.map Prod.fst ++ [k] := by
  induction l with
  | nil => simp [bumpLang]
  | cons y ys ih =>
    rw [bumpLang]
    by_cases h : y.1 = k
    · rw [if_pos h]
      simp [h]
    · rw [if_neg h]
      simp only [List.map_cons, ih]
      by_cases hm : k ∈ ys.map Prod.fst
      · simp [List.mem_cons, hm, Ne.symm h]
      · simp [List.mem_cons, hm, Ne.symm h]

lemma firstAppearancesAux_congr : ∀ (l seen seen' : List String),
    (∀ x, x ∈ seen ↔ x ∈ seen') →
    firstAppearancesAux seen l = firstAppearancesAux seen' l := by
  intro l
  induction l with
  | nil => intro seen seen' _; rfl
  | cons x xs ih =>
    intro seen seen' h
    rw [firstAppearancesAux, firstAppearancesAux]
    by_cases hm : x ∈ seen
    · rw [if_pos hm, if_pos ((h x).mp hm), ih _ _ h]
    · rw [if_neg hm, if_neg (fun hc => hm ((h x).mpr hc))]
      rw [ih (x :: seen) (x :: seen') (fun z => by simp [h z])]

lemma langCounts_keys_aux : ∀ (repos : List GhRepo) (acc : List (String × ℕ)),
    ((repos.foldl
        (fun acc r => if truthyLang r.language then bumpLang acc (r.language.getD "") else acc)
        acc).map Prod.fst) =
      acc.map Prod.fst ++ firstAppearancesAux (acc.map Prod.fst) (repoLangOccurrences repos) := by
  intro repos
  induction repos with
  | nil =>
    intro acc
    simp [repoLangOccurrences, firstAppearancesAux]
  | cons r rs ih =>
    intro acc
    rw [List.foldl_cons]
    by_cases ht : truthyLang r.language = true
    · rw [if_pos ht]
      have hocc : repoLangOccurrences (r :: rs) =
          (r.language.getD "") :: repoLangOccurrences rs := by
        simp [repoLangOccurrences, List.filterMap_cons, ht]
      rw [hocc, ih, bumpLang_keys, firstAppearancesAux]
      by_cases hm : (r.language.getD "") ∈ acc.map Prod.fst
      · rw [if_pos hm, if_pos hm]
      · rw [if_neg hm, if_neg hm]
        rw [firstAppearancesAux_congr (repoLangOccurrences rs)
          (acc.map Prod.fst ++ [r.language.getD ""])
          ((r.language.getD "") :: acc.map Prod.fst)
          (fun z => by simp [or_comm])]
        simp
    · rw [if_neg ht]
      have hocc : repoLangOccurrences (r :: rs) = repoLangOccurrences rs := by
        simp [repoLangOccurrences, List.filterMap_cons, ht]
      rw [hocc, ih]

lemma langCounts_keys (repos : List GhRepo) :
    (langCounts repos).map Prod.fst = firstAppearances (repoLangOccurrences repos) := by
  have h := langCounts_keys_aux repos []
  simpa [langCounts, firstAppearances] using h

/-- C5: `top_languages` has at most 5 entries, is sorted descending
by per-language repository count, preserves — among equal counts — the
order of the language-count dict (whose key order is proved equal to
first-appearance order in the platform's repository list), and on
counts Go:3, Rust:5, Python:5 (Rust first) returns exactly
`[(Rust, 5), (Python, 5), (Go, 3)]`. -/
theorem claim5_top_languages :
    (∀ repos : List GhRepo, (topLanguages repos).length ≤ 5) ∧
    (∀ repos : List GhRepo,
      List.Sorted (fun a b : String × ℕ => b.2 ≤ a.2) (topLanguages repos)) ∧
    (∀ (repos : List GhRepo) (c : ℕ),
      List.Sublist ((topLanguages repos).filter (fun p => p.2 == c))
        ((langCounts repos).filter (fun p => p.2 == c))) ∧
    (∀ repos : List GhRepo,
      (langCounts repos).map Prod.fst = firstAppearances (repoLangOccurrences repos)) ∧
    topLanguages ghExampleRepos = [("Rust", 5), ("Python", 5), ("Go", 3)] := by
  refine ⟨?_, ?_, ?_, langCounts_keys, by decide⟩
  · intro repos
    exact List.length_take_le 5 _
  · intro repos
    exact (sorted_sortByCountDesc (langCounts repos)).sublist (List.take_sublist 5 _)
  · intro repos c
    have h1 : List.Sublist ((topLanguages repos).filter (fun p => p.2 == c))
        ((sortByCountDesc (langCounts repos)).filter (fun p => p.2 == c)) :=
      (List.take_sublist 5 _).filter _
    rwa [filter_sortByCountDesc] at h1
